import Mathlib

/-!
Verification development for the EDA dashboard `app.py`.

The analysis core of the repository is shallowly embedded here:
  * a table is a list of named columns of cells;
  * numeric values are modelled by `ℚ` (missing / unparseable cells by
    `Cell.missing` / `Cell.txt`), so that pandas' numeric coercion
    (`pd.to_numeric(errors="coerce")`) becomes `toNumeric`;
  * the external numeric kernels that the code calls (`np.sqrt`,
    `scipy.stats.t.ppf`, `scipy.stats.ttest_ind`, `pd.to_datetime`,
    `df.sample`'s seeded index choice) are passed to the embedded
    functions as explicit function parameters; the theorems assume only
    their documented analytic properties (e.g. a square root is
    nonnegative and positive on positive inputs).
-/

namespace App

/-- A cell of the loaded table: a numeric value, a piece of text, a
parsed date (an abstract time stamp), or a missing value (NaN/NaT). -/
inductive Cell where
  | num (q : ℚ)
  | txt (s : String)
  | date (d : ℤ)
  | missing
deriving DecidableEq, Repr

/-- Numeric coercion of one cell, as done by
`pd.to_numeric(..., errors="coerce")`: numeric cells survive, everything
else becomes missing (`none`). -/
def toNumeric : Cell → Option ℚ
  | .num q => some q
  | _ => none

/-- String rendering of a cell, as done by `.astype(str)`; missing
values render as a fixed non-category string. -/
def cellStr : Cell → String
  | .num q => toString q
  | .txt s => s
  | .date d => toString d
  | .missing => "nan"

/-- Is the cell missing (pandas `isna`)? -/
def isNa : Cell → Bool
  | .missing => true
  | _ => false

/-- A table is an ordered list of named columns. -/
abbrev Table : Type := List (String × List Cell)

/-- Column access `df[c]`: the first column named `c` (empty if absent). -/
def getCol : Table → String → List Cell
  | [], _ => []
  | (nm, col) :: rest, c => if nm = c then col else getCol rest c

/-- The line `pd.to_numeric(amostra, errors="coerce").dropna()`: the list
of non-missing coerced values of a sample. -/
def cleanList (xs : List Cell) : List ℚ :=
  xs.filterMap toNumeric

/-- Mean of a list of rationals (`Series.mean` on the cleaned values). -/
def qmean (l : List ℚ) : ℚ :=
  l.sum / l.length

/-- Sample variance with Bessel's correction (`Series.var(ddof=1)`):
sum of squared deviations over `n - 1`. -/
def svar (l : List ℚ) : ℚ :=
  (l.map (fun x => (x - qmean l) ^ 2)).sum / ((l.length : ℚ) - 1)

/-- Minimum of a list (`Series.min`), `none` on the empty list (NaN). -/
def listMin : List ℚ → Option ℚ
  | [] => none
  | x :: xs => some (xs.foldl min x)

/-- Maximum of a list (`Series.max`), `none` on the empty list (NaN). -/
def listMax : List ℚ → Option ℚ
  | [] => none
  | x :: xs => some (xs.foldl max x)

/-- `Series.median`: sort the values; middle element when the length is
odd, average of the two middle elements when even; NaN (`none`) when
empty. -/
def mediana (l : List ℚ) : Option ℚ :=
  let s := List.insertionSort (· ≤ ·) l
  if s.length = 0 then none
  else if s.length % 2 = 1 then s[s.length / 2]?
  else
    match s[s.length / 2 - 1]?, s[s.length / 2]? with
    | some a, some b => some ((a + b) / 2)
    | _, _ => none

/-- One row of the descriptive summary produced by
`estatisticas_basicas` for a single column; `none` models NaN.  The
square-root kernel `sq` (numpy's, used inside `Series.std`) is a
parameter. -/
structure ResumoRow where
  coluna : String
  count : ℕ
  mean : Option ℚ
  median : Option ℚ
  std : Option ℚ
  var : Option ℚ
  min : Option ℚ
  max : Option ℚ
deriving DecidableEq, Repr

/-- The loop body of `estatisticas_basicas` for one column `c`:
`serie = pd.to_numeric(df[c], errors="coerce")`, then count, mean,
median, std/var (ddof = 1, NaN unless at least two values), min, max. -/
def resumoCol (sq : ℚ → ℚ) (t : Table) (c : String) : ResumoRow :=
  let serie := cleanList (getCol t c)
  let n := serie.length
  { coluna := c
    count := n
    mean := if n = 0 then none else some (qmean serie)
    median := if n = 0 then none else mediana serie
    std := if 1 < n then some (sq (svar serie)) else none
    var := if 1 < n then some (svar serie) else none
    min := listMin serie
    max := listMax serie }

/-- `estatisticas_basicas(df, colunas_numericas)`: empty request list
gives an empty frame; otherwise one summary row per requested column,
in order. -/
def estatisticas_basicas (sq : ℚ → ℚ) (t : Table) (cols : List String) :
    List ResumoRow :=
  match cols with
  | [] => []
  | _ => cols.map (resumoCol sq t)

/-- `ic_media(amostra, alpha)`: drop missing values; with `n ≤ 1`, an
undefined `s`, or `s = 0` return `(mean, (NaN, NaN))`; otherwise a
two-sided Student-t interval.  `sq` is numpy's square root and `tppf`
is `scipy.stats.t.ppf` (arguments: probability, degrees of freedom). -/
def ic_media (sq : ℚ → ℚ) (tppf : ℚ → ℕ → ℚ) (amostra : List Cell)
    (alpha : ℚ) : Option ℚ × Option (ℚ × ℚ) :=
  let clean := cleanList amostra
  let n := clean.length
  let media : Option ℚ := if n = 0 then none else some (qmean clean)
  let s : Option ℚ := if 1 < n then some (sq (svar clean)) else none
  if n ≤ 1 ∨ s = none ∨ s = some 0 then (media, none)
  else
    let erro := tppf (1 - alpha / 2) (n - 1) * s.getD 0 / sq (n : ℚ)
    (media, some (qmean clean - erro, qmean clean + erro))

/-- `amostrar_df(df, n, seed)`: the full frame when `n ≥ len(df)`,
otherwise the rows at the indices chosen by pandas' seeded sampler,
which is passed in as `sampleIdx (table length) n seed`. -/
def amostrar_df {α : Type} (sampleIdx : ℕ → ℕ → ℕ → List ℕ)
    (df : List α) (n : ℕ) (seed : ℕ) : List α :=
  if df.length ≤ n then df
  else (sampleIdx df.length n seed).filterMap fun i => df[i]?

/-- ASCII lower-casing of one character, as `str.lower()` acts on the
ASCII range (column names here are ASCII). -/
def lowChar (c : Char) : Char :=
  if 'A' ≤ c ∧ c ≤ 'Z' then Char.ofNat (c.toNat + 32) else c

/-- Does the pattern occur at the head of the haystack? -/
def headMatch : List Char → List Char → Bool
  | [], _ => true
  | _ :: _, [] => false
  | a :: p, b :: s => a = b && headMatch p s

/-- Does the pattern occur anywhere in the haystack (Python `in`)? -/
def hasSub (p : List Char) : List Char → Bool
  | [] => headMatch p []
  | s@(_ :: rest) => headMatch p s || hasSub p rest

/-- The date-column test of `carregar_excel`:
`"data" in c.lower()`. -/
def containsData (nm : String) : Bool :=
  hasSub "data".data (nm.data.map lowChar)

/-- One step of `pd.to_datetime(..., errors="coerce")`: `pdate` is the
external parser; cells it cannot parse become missing. -/
def dateCoerce (pdate : Cell → Option ℤ) (c : Cell) : Cell :=
  match pdate c with
  | some d => .date d
  | none => .missing

/-- The date-parsing loop of `carregar_excel`: every column whose name
contains `"data"` (case-insensitively) is passed through
`pd.to_datetime(..., errors="coerce")`. -/
def parseDates (pdate : Cell → Option ℤ) (t : Table) : Table :=
  t.map fun p => if containsData p.1 then (p.1, p.2.map (dateCoerce pdate)) else p

/-- The spurious-column test of `carregar_excel`:
`df.columns.astype(str).str.contains(r"^Unnamed")`. -/
def startsUnnamed (nm : String) : Bool :=
  headMatch "Unnamed".data nm.data

/-- The column-dropping step of `carregar_excel`: keep only columns not
matching `^Unnamed`. -/
def dropUnnamed (t : Table) : Table :=
  t.filter fun p => !startsUnnamed p.1

/-- The error raised by `carregar_excel` when the spreadsheet is absent
(`FileNotFoundError`; the spec's `DataNotFoundError`). -/
inductive LoadError where
  | fileNotFound
deriving DecidableEq, Repr

/-- `carregar_excel()`: fail when the file is absent; otherwise read the
raw sheet (`raw`), parse the date-named columns, and drop `Unnamed`
columns. -/
def carregar_excel (pdate : Cell → Option ℤ) (fileExists : Bool)
    (raw : Table) : Except LoadError Table :=
  if fileExists = false then .error .fileNotFound
  else .ok (dropUnnamed (parseDates pdate raw))

/-- A row of the type/nullity report of `tabela_tipos`. -/
structure TipoRow where
  coluna : String
  dtype : String
  pctNulos : ℚ
deriving DecidableEq, Repr

/-- Number of missing cells of a column (`df[col].isna().sum()`). -/
def countNa (col : List Cell) : ℕ :=
  (col.filter isNa).length

/-- `len(df)`: number of rows of the table (length of its first
column; every column of a data frame has the same length). -/
def nRows : Table → ℕ
  | [] => 0
  | (_, col) :: _ => col.length

/-- Rounding to two decimal places (Python `round(x, 2)`; the tie-break
convention is immaterial to every property stated below). -/
def round2 (q : ℚ) : ℚ :=
  (⌊100 * q + 1 / 2⌋ : ℚ) / 100

/-- Displayed dtype of a column, as inferred by pandas: date columns,
nullable numeric columns, otherwise `object`. -/
def dtypeOf (col : List Cell) : String :=
  if col.any fun c => match c with | .date _ => true | _ => false then
    "datetime64[ns]"
  else if col.all fun c => match c with | .num _ => true | .missing => true | _ => false then
    "Float64"
  else "object"

/-- `tabela_tipos(df)`: one report row per column, with the percentage
of missing values guarded against a zero row count. -/
def tabela_tipos (t : Table) : List TipoRow :=
  t.map fun p =>
    { coluna := p.1
      dtype := dtypeOf p.2
      pctNulos := round2 (if nRows t ≠ 0 then ((countNa p.2 : ℚ) / (nRows t)) * 100 else 0) }

/-- The group extraction of the Welch panel:
`pd.to_numeric(df_viz.loc[df_viz[grupo].astype(str) == cat, metrica], errors="coerce").dropna()`. -/
def groupValues (t : Table) (grupo metrica cat : String) : List ℚ :=
  ((getCol t grupo).zip (getCol t metrica)).filterMap fun p =>
    if cellStr p.1 = cat then toNumeric p.2 else none

/-- Outcome of the Welch-test panel: either the insufficient-sample
warning carrying both observed counts, or the computed metrics. -/
inductive WelchResult where
  | insuficiente (na nb : ℕ)
  | resultado (media_a : Option ℚ) (ic_a : Option (ℚ × ℚ))
      (media_b : Option ℚ) (ic_b : Option (ℚ × ℚ))
      (delta : Option ℚ) (t : ℚ) (p : ℚ)
deriving DecidableEq, Repr

/-- Optional subtraction `media_a - media_b` (NaN-propagating). -/
def osub : Option ℚ → Option ℚ → Option ℚ
  | some a, some b => some (a - b)
  | _, _ => none

/-- The Welch-test panel (module level, `tabs[3]/sub[2]`): extract the
two groups; when both meet the threshold compute the two means with
their confidence intervals, the difference, and the t-test (performed
by the external `ttest`, scipy's `ttest_ind(equal_var=False)`);
otherwise report the insufficient-sample warning with both counts. -/
def welch_panel (sq : ℚ → ℚ) (tppf : ℚ → ℕ → ℚ)
    (ttest : List ℚ → List ℚ → ℚ × ℚ) (t : Table)
    (metrica grupo cat1 cat2 : String) (min_amostra : ℕ) : WelchResult :=
  let df_a := groupValues t grupo metrica cat1
  let df_b := groupValues t grupo metrica cat2
  if min_amostra ≤ df_a.length ∧ min_amostra ≤ df_b.length then
    let ra := ic_media sq tppf (df_a.map Cell.num) (1 / 20)
    let rb := ic_media sq tppf (df_b.map Cell.num) (1 / 20)
    let tp := ttest df_a df_b
    .resultado ra.1 ra.2 rb.1 rb.2 (osub ra.1 rb.1) tp.1 tp.2
  else .insuficiente df_a.length df_b.length

/-- Modelled from the spec: Welch's t-statistic
`t = (mean_A − mean_B) / sqrt(s_A²/n_A + s_B²/n_B)` — the formula the
external `scipy.stats.ttest_ind(equal_var=False)` call computes
(spec §4.6); `sq` is the square-root kernel. -/
def welch_t (sq : ℚ → ℚ) (a b : List ℚ) : ℚ :=
  (qmean a - qmean b) / sq (svar a / a.length + svar b / b.length)

/-- Modelled from the spec: the Welch–Satterthwaite degrees of freedom
used by `scipy.stats.ttest_ind(equal_var=False)` (spec §4.6). -/
def welchDF (a b : List ℚ) : ℚ :=
  (svar a / a.length + svar b / b.length) ^ 2 /
    ((svar a / a.length) ^ 2 / ((a.length : ℚ) - 1) +
      (svar b / b.length) ^ 2 / ((b.length : ℚ) - 1))

/-- Modelled from the spec: the two-tailed p-value derived from the
t-distribution — `2 · sf(|t|, df)` where `sf` is the (external)
survival function of the Student t-distribution (spec §4.6). -/
def welch_p (sq : ℚ → ℚ) (sf : ℚ → ℚ → ℚ) (a b : List ℚ) : ℚ :=
  2 * sf |welch_t sq a b| (welchDF a b)

/-! Auxiliary lemmas about the embedded list operations. -/

theorem foldl_min_le_init (xs : List ℚ) : ∀ z : ℚ, xs.foldl min z ≤ z := by
  induction xs with
  | nil => intro z; exact le_refl z
  | cons a xs ih =>
    intro z
    calc (a :: xs).foldl min z = xs.foldl min (min z a) := rfl
    _ ≤ min z a := ih _
    _ ≤ z := min_le_left _ _

theorem foldl_min_le_mem (xs : List ℚ) : ∀ z y : ℚ, y ∈ xs → xs.foldl min z ≤ y := by
  induction xs with
  | nil => intro z y hy; cases hy
  | cons a xs ih =>
    intro z y hy
    rcases List.mem_cons.mp hy with rfl | hy
    · calc (y :: xs).foldl min z = xs.foldl min (min z y) := rfl
      _ ≤ min z y := foldl_min_le_init _ _
      _ ≤ y := min_le_right _ _
    · exact ih (min z a) y hy

theorem listMin_le {l : List ℚ} {mn : ℚ} (h : listMin l = some mn) :
    ∀ y ∈ l, mn ≤ y := by
  cases l with
  | nil => cases h
  | cons x xs =>
    intro y hy
    have hmn : mn = xs.foldl min x := by
      simpa [listMin] using h.symm
    subst hmn
    rcases List.mem_cons.mp hy with rfl | hy
    · exact foldl_min_le_init xs y
    · exact foldl_min_le_mem xs x y hy

theorem init_le_foldl_max (xs : List ℚ) : ∀ z : ℚ, z ≤ xs.foldl max z := by
  induction xs with
  | nil => intro z; exact le_refl z
  | cons a xs ih =>
    intro z
    calc z ≤ max z a := le_max_left _ _
    _ ≤ xs.foldl max (max z a) := ih _
    _ = (a :: xs).foldl max z := rfl

theorem mem_le_foldl_max (xs : List ℚ) : ∀ z y : ℚ, y ∈ xs → y ≤ xs.foldl max z := by
  induction xs with
  | nil => intro z y hy; cases hy
  | cons a xs ih =>
    intro z y hy
    rcases List.mem_cons.mp hy with rfl | hy
    · calc y ≤ max z y := le_max_right _ _
      _ ≤ xs.foldl max (max z y) := init_le_foldl_max _ _
      _ = (y :: xs).foldl max z := rfl
    · exact ih (max z a) y hy

theorem le_listMax {l : List ℚ} {mx : ℚ} (h : listMax l = some mx) :
    ∀ y ∈ l, y ≤ mx := by
  cases l with
  | nil => cases h
  | cons x xs =>
    intro y hy
    have hmx : mx = xs.foldl max x := by
      simpa [listMax] using h.symm
    subst hmx
    rcases List.mem_cons.mp hy with rfl | hy
    · exact init_le_foldl_max xs y
    · exact mem_le_foldl_max xs x y hy

theorem listMin_eq_none {l : List ℚ} : listMin l = none ↔ l = [] := by
  cases l <;> simp [listMin]

theorem listMax_eq_none {l : List ℚ} : listMax l = none ↔ l = [] := by
  cases l <;> simp [listMax]

/-- Any defined median is the average of two elements of the list (the
same element twice when the length is odd). -/
theorem mediana_avg {l : List ℚ} {md : ℚ} (h : mediana l = some md) :
    ∃ a ∈ l, ∃ b ∈ l, md = (a + b) / 2 := by
  classical
  unfold mediana at h
  set s := List.insertionSort (· ≤ ·) l with hs
  have hmem : ∀ x, x ∈ s → x ∈ l := by
    intro x hx
    exact (List.mem_insertionSort _).mp hx
  by_cases h0 : s.length = 0
  · simp [h0] at h
  · by_cases hodd : s.length % 2 = 1
    · simp only [h0, hodd, if_true, if_false] at h
      have hm : md ∈ s := List.getElem?_mem h
      exact ⟨md, hmem _ hm, md, hmem _ hm, by ring⟩
    · simp only [h0, hodd, if_false] at h
      cases e1 : s[s.length / 2 - 1]? with
      | none => rw [e1] at h; cases e2 : s[s.length / 2]? <;> rw [e2] at h <;> cases h
      | some a =>
        cases e2 : s[s.length / 2]? with
        | none => rw [e1, e2] at h; cases h
        | some b =>
          rw [e1, e2] at h
          have hab : md = (a + b) / 2 := by
            simpa using h.symm
          exact ⟨a, hmem _ (List.getElem?_mem e1), b, hmem _ (List.getElem?_mem e2), hab⟩

theorem parseDates_cons (pdate : Cell → Option ℤ) (p : String × List Cell) (t : Table) :
    parseDates pdate (p :: t) =
      (if containsData p.1 then (p.1, p.2.map (dateCoerce pdate)) else p) :: parseDates pdate t :=
  rfl

theorem getCol_cons (nm0 : String) (col : List Cell) (rest : Table) (c : String) :
    getCol ((nm0, col) :: rest) c = if nm0 = c then col else getCol rest c :=
  rfl

/-- Selecting rows of `df` at a strictly increasing list of indices
yields a sublist of `df`. -/
theorem filterMap_getElem_sublist {α : Type} :
    ∀ (df : List α) (idxs : List ℕ), idxs.Pairwise (· < ·) →
      List.Sublist (idxs.filterMap fun i => df[i]?) df := by
  intro df
  induction df with
  | nil =>
    intro idxs _
    have he : (idxs.filterMap fun i => ([] : List α)[i]?) = [] := by
      induction idxs with
      | nil => rfl
      | cons i rest ih => simp [List.filterMap_cons, ih]
    rw [he]
  | cons a df ih =>
    intro idxs hp
    cases idxs with
    | nil => exact List.nil_sublist _
    | cons i rest =>
      rw [List.pairwise_cons] at hp
      obtain ⟨hall, hrest⟩ := hp
      have hshift : ∀ js : List ℕ, (∀ j ∈ js, 1 ≤ j) →
          (js.filterMap fun j => (a :: df)[j]?) =
            (js.map fun j => j - 1).filterMap fun j => df[j]? := by
        intro js hjs
        rw [List.filterMap_map]
        refine List.filterMap_congr ?_
        intro j hj
        have h1 : 1 ≤ j := hjs j hj
        have : j = (j - 1) + 1 := by omega
        rw [this]
        simp
      cases i with
      | zero =>
        have hrest1 : ∀ j ∈ rest, 1 ≤ j := fun j hj => hall j hj
        have e : ((0 :: rest).filterMap fun j => (a :: df)[j]?) =
            a :: ((rest.map fun j => j - 1).filterMap fun j => df[j]?) := by
          rw [List.filterMap_cons]
          simp only [List.getElem?_cons_zero]
          rw [hshift rest hrest1]
        rw [e]
        refine List.Sublist.cons₂ a (ih _ ?_)
        rw [List.pairwise_map]
        refine List.Pairwise.imp_of_mem ?_ hrest
        intro x y hx _ hxy
        have : 1 ≤ x := hrest1 x hx
        omega
      | succ k =>
        have hge : ∀ j ∈ (k + 1) :: rest, 1 ≤ j := by
          intro j hj
          rcases List.mem_cons.mp hj with rfl | hj
          · omega
          · have := hall j hj; omega
        rw [hshift _ hge]
        refine List.Sublist.cons a (ih _ ?_)
        rw [List.pairwise_map]
        refine List.Pairwise.imp_of_mem ?_ (List.pairwise_cons.mpr ⟨hall, hrest⟩)
        intro x y hx _ hxy
        have : 1 ≤ x := hge x hx
        omega

/-- Selecting rows of `df` at distinct in-range indices yields a
subpermutation of `df` (rows without replacement). -/
theorem filterMap_getElem_subperm {α : Type} (df : List α) (idxs : List ℕ)
    (hnd : idxs.Nodup) :
    List.Subperm (idxs.filterMap fun i => df[i]?) df := by
  have hperm : (List.insertionSort (· ≤ ·) idxs).Perm idxs :=
    List.perm_insertionSort _ _
  have hsorted : (List.insertionSort (· ≤ ·) idxs).Sorted (· ≤ ·) :=
    List.sorted_insertionSort _ _
  have hnd' : (List.insertionSort (· ≤ ·) idxs).Nodup := hperm.nodup_iff.mpr hnd
  have hlt : (List.insertionSort (· ≤ ·) idxs).Pairwise (· < ·) := by
    refine (List.Pairwise.and hsorted hnd').imp ?_
    intro a b hab
    exact lt_of_le_of_ne hab.1 hab.2
  have hsub := filterMap_getElem_sublist df _ hlt
  have hp2 : ((List.insertionSort (· ≤ ·) idxs).filterMap fun i => df[i]?).Perm
      (idxs.filterMap fun i => df[i]?) := hperm.filterMap _
  exact ⟨_, hp2, hsub⟩

/-- Selecting rows at in-range indices keeps the number of indices. -/
theorem filterMap_getElem_length {α : Type} (df : List α) :
    ∀ idxs : List ℕ, (∀ i ∈ idxs, i < df.length) →
      (idxs.filterMap fun i => df[i]?).length = idxs.length := by
  intro idxs
  induction idxs with
  | nil => intro _; rfl
  | cons i rest ih =>
    intro hb
    have hi : i < df.length := hb i (List.mem_cons_self _ _)
    rw [List.filterMap_cons, List.getElem?_eq_getElem hi]
    simp only [Option.toList]
    have := ih fun j hj => hb j (List.mem_cons_of_mem _ hj)
    simp [this]

/-! The claims. -/

/-- Claim C1: for every numeric sample and significance level `0 < α < 1`,
`ic_media` returns an undefined interval iff the non-missing count is at
most 1 or the sample standard deviation is undefined or zero; otherwise
it returns `(m − margin, m + margin)` with
`margin = t_crit · s / √n`, and then `lower < mean < upper`.  The
hypotheses state the standard analytic facts about the external kernels:
a square root is nonnegative and positive on positive inputs, and the
t-distribution quantile at a probability above 1/2 is positive. -/
theorem ic_media_interval_spec (sq : ℚ → ℚ) (tppf : ℚ → ℕ → ℚ)
    (hpos : ∀ q : ℚ, 0 < q → 0 < sq q) (hnn : ∀ q : ℚ, 0 ≤ sq q)
    (htp : ∀ (p : ℚ) (d : ℕ), 1 / 2 < p → 0 < tppf p d)
    (amostra : List Cell) (alpha : ℚ) (h0 : 0 < alpha) (h1 : alpha < 1) :
    ((ic_media sq tppf amostra alpha).2 = none ↔
      (cleanList amostra).length ≤ 1 ∨ sq (svar (cleanList amostra)) = 0) ∧
    ∀ lo hi, (ic_media sq tppf amostra alpha).2 = some (lo, hi) →
      (ic_media sq tppf amostra alpha).1 = some (qmean (cleanList amostra)) ∧
      lo = qmean (cleanList amostra) -
        tppf (1 - alpha / 2) ((cleanList amostra).length - 1) *
          sq (svar (cleanList amostra)) / sq ((cleanList amostra).length : ℚ) ∧
      hi = qmean (cleanList amostra) +
        tppf (1 - alpha / 2) ((cleanList amostra).length - 1) *
          sq (svar (cleanList amostra)) / sq ((cleanList amostra).length : ℚ) ∧
      lo < qmean (cleanList amostra) ∧ qmean (cleanList amostra) < hi := by
  by_cases hn : 1 < (cleanList amostra).length
  · have hne : ¬ (cleanList amostra).length = 0 := by omega
    have hle : ¬ (cleanList amostra).length ≤ 1 := by omega
    by_cases hs : sq (svar (cleanList amostra)) = 0
    · have e : ic_media sq tppf amostra alpha =
          (some (qmean (cleanList amostra)), none) := by
        simp [ic_media, hle, hne, hs]
      rw [e]
      constructor
      · simp [hs]
      · intro lo hi h
        cases h
    · have e : ic_media sq tppf amostra alpha =
          (some (qmean (cleanList amostra)),
            some (qmean (cleanList amostra) -
              tppf (1 - alpha / 2) ((cleanList amostra).length - 1) *
                sq (svar (cleanList amostra)) / sq ((cleanList amostra).length : ℚ),
              qmean (cleanList amostra) +
              tppf (1 - alpha / 2) ((cleanList amostra).length - 1) *
                sq (svar (cleanList amostra)) / sq ((cleanList amostra).length : ℚ))) := by
        simp [ic_media, hle, hne, hs, hn]
      rw [e]
      constructor
      · simp [hs, hle]
      · intro lo hi h
        have hlo : lo = qmean (cleanList amostra) -
            tppf (1 - alpha / 2) ((cleanList amostra).length - 1) *
              sq (svar (cleanList amostra)) / sq ((cleanList amostra).length : ℚ) := by
          have := congrArg (fun x : Option (ℚ × ℚ) => x) h
          simp at h
          exact h.1.symm
        have hhi : hi = qmean (cleanList amostra) +
            tppf (1 - alpha / 2) ((cleanList amostra).length - 1) *
              sq (svar (cleanList amostra)) / sq ((cleanList amostra).length : ℚ) := by
          simp at h
          exact h.2.symm
        have hsv : 0 < sq (svar (cleanList amostra)) :=
          lt_of_le_of_ne (hnn _) (Ne.symm hs)
        have hnq : (0 : ℚ) < ((cleanList amostra).length : ℚ) := by
          have : 0 < (cleanList amostra).length := by omega
          exact_mod_cast this
        have hsn : 0 < sq ((cleanList amostra).length : ℚ) := hpos _ hnq
        have htc : 0 < tppf (1 - alpha / 2) ((cleanList amostra).length - 1) :=
          htp _ _ (by linarith)
        have herr : 0 < tppf (1 - alpha / 2) ((cleanList amostra).length - 1) *
            sq (svar (cleanList amostra)) / sq ((cleanList amostra).length : ℚ) :=
          div_pos (mul_pos htc hsv) hsn
        exact ⟨rfl, hlo, hhi, by rw [hlo]; linarith, by rw [hhi]; linarith⟩
  · have hle : (cleanList amostra).length ≤ 1 := by omega
    have e : (ic_media sq tppf amostra alpha).2 = none := by
      simp [ic_media, hle]
    constructor
    · rw [e]
      simp [hle]
    · intro lo hi h
      rw [e] at h
      cases h

/-- Witness for C1 at the sample `[1, 2, 4]` with `α = 1/20`, taking
`|·|` as the square-root kernel and the constant 2 as the t-quantile:
the interval is defined there. -/
theorem ic_media_interval_spec_witness :
    ((ic_media (fun q => |q|) (fun _ _ => 2)
      [Cell.num 1, Cell.num 2, Cell.num 4] (1 / 20)).2).isSome = true := by
  have h := ic_media_interval_spec (fun q => |q|) (fun _ _ => 2)
    (fun q hq => abs_pos.mpr (ne_of_gt hq)) (fun q => abs_nonneg q)
    (fun p d hp => by norm_num)
    [Cell.num 1, Cell.num 2, Cell.num 4] (1 / 20) (by norm_num) (by norm_num)
  cases e : (ic_media (fun q => |q|) (fun _ _ => 2)
      [Cell.num 1, Cell.num 2, Cell.num 4] (1 / 20)).2 with
  | some p => rfl
  | none =>
    exfalso
    rcases h.1.mp e with h2 | h2
    · simp [cleanList, toNumeric] at h2
    · have hv : svar (cleanList [Cell.num 1, Cell.num 2, Cell.num 4]) = 7 / 3 := by
        simp [svar, qmean, cleanList, toNumeric]
        norm_num
      rw [hv] at h2
      norm_num at h2

/-- Claim C10: on a sample that is empty or all-missing after numeric
coercion, `ic_media` returns NaN as the point estimate together with an
undefined interval, raising no error. -/
theorem ic_media_all_missing (sq : ℚ → ℚ) (tppf : ℚ → ℕ → ℚ)
    (amostra : List Cell) (alpha : ℚ) (h : cleanList amostra = []) :
    ic_media sq tppf amostra alpha = (none, none) := by
  simp [ic_media, h]

/-- Witness for C10 at a concrete all-missing sample. -/
theorem ic_media_all_missing_witness :
    ic_media (fun q => q) (fun _ _ => 0) [Cell.missing, Cell.txt "abc"] (1 / 20) =
      (none, none) :=
  ic_media_all_missing (fun q => q) (fun _ _ => 0) [Cell.missing, Cell.txt "abc"]
    (1 / 20) rfl

/-- Claim C9: on a table with zero rows, `tabela_tipos` still returns
one report row per column and reports 0.0 % missing values instead of
dividing by zero. -/
theorem tabela_tipos_zero_rows (t : Table) (h : nRows t = 0) :
    (tabela_tipos t).length = t.length ∧
    ∀ r ∈ tabela_tipos t, r.pctNulos = 0 := by
  constructor
  · simp [tabela_tipos]
  · intro r hr
    simp only [tabela_tipos, List.mem_map] at hr
    obtain ⟨p, hp, hre⟩ := hr
    rw [← hre]
    simp only [h]
    norm_num [round2]

/-- Witness for C9 at a concrete two-column table with no rows: the
report keeps both columns. -/
theorem tabela_tipos_zero_rows_witness :
    (tabela_tipos [("a", ([] : List Cell)), ("b", [])]).length =
      ([("a", ([] : List Cell)), ("b", [])] : Table).length :=
  (tabela_tipos_zero_rows [("a", []), ("b", [])] rfl).1

/-- Claim C7: the loader fails with the file-not-found error exactly
when the dataset file is absent, and on success the returned table has
no column whose name matches the spurious `^Unnamed` pattern. -/
theorem carregar_excel_spec (pdate : Cell → Option ℤ) (fileExists : Bool)
    (raw : Table) :
    (∀ e, carregar_excel pdate fileExists raw = .error e ↔
      (fileExists = false ∧ e = .fileNotFound)) ∧
    (∀ t, carregar_excel pdate fileExists raw = .ok t →
      ∀ p ∈ t, startsUnnamed p.1 = false) := by
  constructor
  · intro e
    cases fileExists with
    | false =>
      cases e
      simp [carregar_excel]
    | true =>
      simp [carregar_excel]
  · intro t ht p hp
    cases fileExists with
    | false => simp [carregar_excel] at ht
    | true =>
      simp only [carregar_excel, Bool.true_eq_false, if_false, Except.ok.injEq] at ht
      rw [← ht] at hp
      have := List.mem_filter.mp hp
      simpa using this.2

/-- Witness for C7: a concrete load in which the file exists and the
raw sheet has an `Unnamed: 22` column; the surviving column passes the
spurious-name test. -/
theorem carregar_excel_spec_witness :
    startsUnnamed (("Qty", [Cell.num 1]) : String × List Cell).1 = false :=
  (carregar_excel_spec (fun _ => none) true
    [("Unnamed: 22", []), ("Qty", [Cell.num 1])]).2 [("Qty", [Cell.num 1])] rfl
    ("Qty", [Cell.num 1]) (List.mem_singleton.mpr rfl)

/-- Claim C6 counterexample: `"OrderDate"` does not contain the
substring `"data"` case-insensitively, so the loader leaves an
`OrderDate` column completely untouched — its unparseable entry
`"N/A"` stays a text cell instead of becoming missing, contradicting
the claim that such a column is date-parsed. -/
theorem orderdate_not_parsed_cex :
    containsData "OrderDate" = false ∧
    carregar_excel (fun _ => none) true [("OrderDate", [Cell.txt "N/A"])] =
      .ok [("OrderDate", [Cell.txt "N/A"])] :=
  ⟨rfl, rfl⟩

/-- Claim C6 (amended): date parsing is applied exactly to the columns
whose name contains `"data"` case-insensitively; a column named
`"OrderDate"` does not match and is left unchanged, while a matching
column (e.g. `"Data_Pedido"`) has every entry the external parser
rejects turned into a missing value. -/
theorem date_parse_contains_data (pdate : Cell → Option ℤ) (t : Table) :
    (∀ nm, getCol (parseDates pdate t) nm =
      if containsData nm then (getCol t nm).map (dateCoerce pdate)
      else getCol t nm) ∧
    containsData "OrderDate" = false ∧
    containsData "Data_Pedido" = true ∧
    ∀ c, pdate c = none → dateCoerce pdate c = Cell.missing := by
  refine ⟨?_, rfl, rfl, ?_⟩
  · intro nm
    induction t with
    | nil =>
      simp only [parseDates, List.map_nil]
      split <;> rfl
    | cons p rest ih =>
      obtain ⟨nm0, col⟩ := p
      rw [parseDates_cons]
      have head : (if containsData nm0 then (nm0, col.map (dateCoerce pdate))
            else (nm0, col)) =
          (nm0, if containsData nm0 then col.map (dateCoerce pdate) else col) := by
        split <;> rfl
      rw [head, getCol_cons, getCol_cons]
      by_cases he : nm0 = nm
      · subst he
        by_cases h0 : containsData nm0 <;> simp [h0]
      · simp only [he, if_false, ih]
  · intro c h
    simp [dateCoerce, h]

/-- Witness for C6 (amended): with a parser rejecting everything, the
matching column `"Data"` has its text entry turned into a missing
value. -/
theorem date_parse_contains_data_witness :
    getCol (parseDates (fun _ => none) [("Data", [Cell.txt "x"])]) "Data" =
      [Cell.missing] := by
  rw [(date_parse_contains_data (fun _ => none) [("Data", [Cell.txt "x"])]).1 "Data"]
  rfl

/-- Claim C4: the Welch panel reports the insufficient-sample warning,
carrying both groups' observed non-missing counts, exactly when at
least one group's non-missing coerced count is below the threshold (no
t-statistic exists in that outcome); otherwise it returns the group
means, group confidence intervals, the mean difference A − B, and the
statistic/p-value pair produced by the t-test call. -/
theorem welch_panel_insufficient_iff (sq : ℚ → ℚ) (tppf : ℚ → ℕ → ℚ)
    (ttest : List ℚ → List ℚ → ℚ × ℚ) (t : Table)
    (metrica grupo cat1 cat2 : String) (min_amostra : ℕ) :
    (∀ x y, welch_panel sq tppf ttest t metrica grupo cat1 cat2 min_amostra =
        .insuficiente x y ↔
      ((groupValues t grupo metrica cat1).length < min_amostra ∨
        (groupValues t grupo metrica cat2).length < min_amostra) ∧
      x = (groupValues t grupo metrica cat1).length ∧
      y = (groupValues t grupo metrica cat2).length) ∧
    (min_amostra ≤ (groupValues t grupo metrica cat1).length →
      min_amostra ≤ (groupValues t grupo metrica cat2).length →
      welch_panel sq tppf ttest t metrica grupo cat1 cat2 min_amostra =
        .resultado
          (ic_media sq tppf ((groupValues t grupo metrica cat1).map Cell.num) (1 / 20)).1
          (ic_media sq tppf ((groupValues t grupo metrica cat1).map Cell.num) (1 / 20)).2
          (ic_media sq tppf ((groupValues t grupo metrica cat2).map Cell.num) (1 / 20)).1
          (ic_media sq tppf ((groupValues t grupo metrica cat2).map Cell.num) (1 / 20)).2
          (osub (ic_media sq tppf ((groupValues t grupo metrica cat1).map Cell.num) (1 / 20)).1
            (ic_media sq tppf ((groupValues t grupo metrica cat2).map Cell.num) (1 / 20)).1)
          (ttest (groupValues t grupo metrica cat1) (groupValues t grupo metrica cat2)).1
          (ttest (groupValues t grupo metrica cat1) (groupValues t grupo metrica cat2)).2) := by
  by_cases hc : min_amostra ≤ (groupValues t grupo metrica cat1).length ∧
      min_amostra ≤ (groupValues t grupo metrica cat2).length
  · have e : welch_panel sq tppf ttest t metrica grupo cat1 cat2 min_amostra =
        .resultado
          (ic_media sq tppf ((groupValues t grupo metrica cat1).map Cell.num) (1 / 20)).1
          (ic_media sq tppf ((groupValues t grupo metrica cat1).map Cell.num) (1 / 20)).2
          (ic_media sq tppf ((groupValues t grupo metrica cat2).map Cell.num) (1 / 20)).1
          (ic_media sq tppf ((groupValues t grupo metrica cat2).map Cell.num) (1 / 20)).2
          (osub (ic_media sq tppf ((groupValues t grupo metrica cat1).map Cell.num) (1 / 20)).1
            (ic_media sq tppf ((groupValues t grupo metrica cat2).map Cell.num) (1 / 20)).1)
          (ttest (groupValues t grupo metrica cat1) (groupValues t grupo metrica cat2)).1
          (ttest (groupValues t grupo metrica cat1) (groupValues t grupo metrica cat2)).2 := by
      simp [welch_panel, hc]
    constructor
    · intro x y
      rw [e]
      constructor
      · intro h; cases h
      · rintro ⟨h, -, -⟩
        omega
    · intro _ _
      exact e
  · have e : welch_panel sq tppf ttest t metrica grupo cat1 cat2 min_amostra =
        .insuficiente (groupValues t grupo metrica cat1).length
          (groupValues t grupo metrica cat2).length := by
      simp [welch_panel, hc]
    constructor
    · intro x y
      rw [e]
      constructor
      · intro h
        injection h with h1 h2
        exact ⟨by omega, h1.symm, h2.symm⟩
      · rintro ⟨-, rfl, rfl⟩
        rfl
    · intro h1 h2
      exact absurd ⟨h1, h2⟩ hc

/-- Witness for C4: a concrete table in which group `x` has 2 values
and group `y` has 1, below the threshold 2 for group `y`, so the panel
reports the warning with the counts (2, 1). -/
theorem welch_panel_insufficient_iff_witness :
    welch_panel (fun q => |q|) (fun _ _ => 2) (fun _ _ => (3, 1 / 100))
      [("g", [Cell.txt "x", Cell.txt "y", Cell.txt "x"]),
        ("m", [Cell.num 1, Cell.num 2, Cell.num 3])]
      "m" "g" "x" "y" 2 = .insuficiente 2 1 :=
  ((welch_panel_insufficient_iff (fun q => |q|) (fun _ _ => 2) (fun _ _ => (3, 1 / 100))
      [("g", [Cell.txt "x", Cell.txt "y", Cell.txt "x"]),
        ("m", [Cell.num 1, Cell.num 2, Cell.num 3])]
      "m" "g" "x" "y" 2).1 2 1).mpr ⟨Or.inr (by decide), by decide, by decide⟩

/-- Claim C5: for groups meeting the threshold, Welch's t-statistic has
the sign of `mean_A − mean_B`; swapping the groups negates both the
t-statistic and the mean difference and leaves the two-tailed p-value
unchanged.  The hypothesis `hden` rules out the degenerate case of two
zero-variance groups, where the statistic is not a real number. -/
theorem welch_t_sign_swap (sq : ℚ → ℚ) (sf : ℚ → ℚ → ℚ) (a b : List ℚ)
    (min_amostra : ℕ) (hna : min_amostra ≤ a.length) (hnb : min_amostra ≤ b.length)
    (hden : 0 < sq (svar a / a.length + svar b / b.length)) :
    (0 < qmean a - qmean b → 0 < welch_t sq a b) ∧
    (qmean a - qmean b = 0 → welch_t sq a b = 0) ∧
    (qmean a - qmean b < 0 → welch_t sq a b < 0) ∧
    welch_t sq b a = -welch_t sq a b ∧
    qmean b - qmean a = -(qmean a - qmean b) ∧
    welch_p sq sf b a = welch_p sq sf a b := by
  have hcomm : svar b / b.length + svar a / a.length =
      svar a / a.length + svar b / b.length := by ring
  have hswap : welch_t sq b a = -welch_t sq a b := by
    unfold welch_t
    rw [hcomm, show qmean b - qmean a = -(qmean a - qmean b) from by ring, neg_div]
  refine ⟨?_, ?_, ?_, hswap, by ring, ?_⟩
  · intro h
    exact div_pos h hden
  · intro h
    unfold welch_t
    rw [h, zero_div]
  · intro h
    exact div_neg_of_neg_of_pos h hden
  · unfold welch_p
    rw [hswap, abs_neg]
    have hdf : welchDF b a = welchDF a b := by
      unfold welchDF
      rw [hcomm, add_comm ((svar b / b.length) ^ 2 / ((b.length : ℚ) - 1))]
    rw [hdf]

/-- Witness for C5 at the spec's end-to-end groups
`A = [10,12,11,13]`, `B = [20,22,21,19]`, threshold 3: swapping the
groups negates the t-statistic. -/
theorem welch_t_sign_swap_witness :
    welch_t (fun q => |q|) [20, 22, 21, 19] [10, 12, 11, 13] =
      -welch_t (fun q => |q|) [10, 12, 11, 13] [20, 22, 21, 19] :=
  (welch_t_sign_swap (fun q => |q|) (fun _ _ => 1 / 100)
    [10, 12, 11, 13] [20, 22, 21, 19] 3 (by norm_num) (by norm_num)
    (by norm_num [svar, qmean])).2.2.2.1

/-- Claim C2: `estatisticas_basicas` returns one summary row per
requested column in the requested order (an empty request yields an
empty result); for each column the values are coerced with unparseable
entries treated as missing, `count` is the number of non-missing
values, mean and median range over the non-missing values, the sample
standard deviation and variance use divisor `N − 1` and are undefined
when `count < 2`, and min and max are undefined exactly when
`count = 0`. -/
theorem estatisticas_basicas_spec (sq : ℚ → ℚ) (t : Table) (cols : List String) :
    (cols = [] → estatisticas_basicas sq t cols = []) ∧
    (estatisticas_basicas sq t cols).length = cols.length ∧
    (∀ i : ℕ, (estatisticas_basicas sq t cols)[i]? =
      (cols[i]?).map (resumoCol sq t)) ∧
    ∀ c : String,
      (resumoCol sq t c).coluna = c ∧
      (resumoCol sq t c).count = (cleanList (getCol t c)).length ∧
      (resumoCol sq t c).mean =
        (if (cleanList (getCol t c)).length = 0 then none
          else some (qmean (cleanList (getCol t c)))) ∧
      (resumoCol sq t c).median =
        (if (cleanList (getCol t c)).length = 0 then none
          else mediana (cleanList (getCol t c))) ∧
      ((resumoCol sq t c).std = none ↔ (resumoCol sq t c).count < 2) ∧
      (resumoCol sq t c).std = ((resumoCol sq t c).var).map sq ∧
      (resumoCol sq t c).var =
        (if 2 ≤ (cleanList (getCol t c)).length then
          some (((cleanList (getCol t c)).map
              (fun x => (x - qmean (cleanList (getCol t c))) ^ 2)).sum /
            (((cleanList (getCol t c)).length : ℚ) - 1))
          else none) ∧
      ((resumoCol sq t c).min = none ↔ (cleanList (getCol t c)).length = 0) ∧
      ((resumoCol sq t c).max = none ↔ (cleanList (getCol t c)).length = 0) := by
  have hmap : estatisticas_basicas sq t cols = cols.map (resumoCol sq t) := by
    cases cols <;> rfl
  refine ⟨fun h => by rw [h]; rfl, by rw [hmap]; simp, ?_, ?_⟩
  · intro i
    rw [hmap]
    exact List.getElem?_map _ _ i
  · intro c
    refine ⟨rfl, rfl, rfl, rfl, ?_, ?_, ?_, ?_, ?_⟩
    · show (if 1 < (cleanList (getCol t c)).length
          then some (sq (svar (cleanList (getCol t c)))) else none) = none ↔
        (cleanList (getCol t c)).length < 2
      split <;> simp <;> omega
    · show (if 1 < (cleanList (getCol t c)).length
          then some (sq (svar (cleanList (getCol t c)))) else none) =
        ((if 1 < (cleanList (getCol t c)).length
          then some (svar (cleanList (getCol t c))) else none)).map sq
      split <;> simp
    · show (if 1 < (cleanList (getCol t c)).length
          then some (svar (cleanList (getCol t c))) else none) = _
      rcases Nat.lt_or_ge 1 (cleanList (getCol t c)).length with h | h
      · rw [if_pos h, if_pos (by omega)]
        rfl
      · rw [if_neg (by omega), if_neg (by omega)]
    · show listMin (cleanList (getCol t c)) = none ↔ _
      rw [listMin_eq_none, List.length_eq_zero]
    · show listMax (cleanList (getCol t c)) = none ↔ _
      rw [listMax_eq_none, List.length_eq_zero]

/-- Witness for C2: the empty request list yields the empty summary. -/
theorem estatisticas_basicas_spec_witness :
    estatisticas_basicas (fun q => q) [("Qty", [Cell.num 1])] [] = [] :=
  (estatisticas_basicas_spec (fun q => q) [("Qty", [Cell.num 1])] []).1 rfl

/-- Claim C8: every summary row's `count` equals the number of
non-missing coerced values of its column, and whenever min, median and
max are all defined they satisfy `min ≤ median ≤ max`. -/
theorem resumo_min_median_max (sq : ℚ → ℚ) (t : Table) (cols : List String) :
    ∀ row ∈ estatisticas_basicas sq t cols,
      row.count = (cleanList (getCol t row.coluna)).length ∧
      ∀ mn md mx : ℚ, row.min = some mn → row.median = some md →
        row.max = some mx → mn ≤ md ∧ md ≤ mx := by
  intro row hrow
  have hmap : estatisticas_basicas sq t cols = cols.map (resumoCol sq t) := by
    cases cols <;> rfl
  rw [hmap] at hrow
  obtain ⟨c, hc, rfl⟩ := List.mem_map.mp hrow
  refine ⟨rfl, ?_⟩
  intro mn md mx hmn hmd hmx
  have hmn' : listMin (cleanList (getCol t c)) = some mn := hmn
  have hmx' : listMax (cleanList (getCol t c)) = some mx := hmx
  have hmd0 : (if (cleanList (getCol t c)).length = 0 then none
      else mediana (cleanList (getCol t c))) = some md := hmd
  by_cases h0 : (cleanList (getCol t c)).length = 0
  · rw [if_pos h0] at hmd0
    cases hmd0
  · rw [if_neg h0] at hmd0
    obtain ⟨a, ha, b, hb, rfl⟩ := mediana_avg hmd0
    have h1 := listMin_le hmn' a ha
    have h2 := listMin_le hmn' b hb
    have h3 := le_listMax hmx' a ha
    have h4 := le_listMax hmx' b hb
    constructor <;> linarith

/-- Witness for C8 on the column `[1, 3]`: min 1, median 2, max 3 are
ordered. -/
theorem resumo_min_median_max_witness : (1 : ℚ) ≤ 2 ∧ (2 : ℚ) ≤ 3 :=
  (resumo_min_median_max (fun q => q) [("q", [Cell.num 1, Cell.num 3])] ["q"]
      (resumoCol (fun q => q) [("q", [Cell.num 1, Cell.num 3])] "q")
      (List.mem_singleton.mpr rfl)).2 1 2 3
    (by norm_num [resumoCol, cleanList, toNumeric, getCol, listMin, min_def,
      List.filterMap_cons, List.filterMap_nil])
    (by norm_num [resumoCol, cleanList, toNumeric, getCol, mediana,
      List.insertionSort, List.orderedInsert, List.filterMap_cons, List.filterMap_nil])
    (by norm_num [resumoCol, cleanList, toNumeric, getCol, listMax, max_def,
      List.filterMap_cons, List.filterMap_nil])

/-- Claim C3: the sampler returns the table unchanged when the
requested count reaches the row count; otherwise it returns exactly `n`
rows drawn without replacement (a subpermutation of the table); and the
embedding is a pure function of `(table, n, seed)`, so two calls with
the same arguments return the same rows.  The hypotheses are the
documented properties of pandas' seeded index sampler: on a request of
`n < len` rows it yields `n` distinct in-range indices. -/
theorem amostrar_df_spec {α : Type} (sampleIdx : ℕ → ℕ → ℕ → List ℕ)
    (hlen : ∀ len n seed, n < len → (sampleIdx len n seed).length = n)
    (hnd : ∀ len n seed, n < len → (sampleIdx len n seed).Nodup)
    (hbd : ∀ len n seed, n < len → ∀ i ∈ sampleIdx len n seed, i < len)
    (df : List α) (n seed : ℕ) :
    (df.length ≤ n → amostrar_df sampleIdx df n seed = df) ∧
    (n < df.length →
      (amostrar_df sampleIdx df n seed).length = n ∧
      List.Subperm (amostrar_df sampleIdx df n seed) df) ∧
    amostrar_df sampleIdx df n seed = amostrar_df sampleIdx df n seed := by
  refine ⟨?_, ?_, rfl⟩
  · intro h
    simp [amostrar_df, h]
  · intro h
    have hnle : ¬ df.length ≤ n := by omega
    have e : amostrar_df sampleIdx df n seed =
        (sampleIdx df.length n seed).filterMap fun i => df[i]? := by
      simp [amostrar_df, hnle]
    rw [e]
    constructor
    · rw [filterMap_getElem_length df _ (hbd _ _ seed h)]
      exact hlen _ _ seed h
    · exact filterMap_getElem_subperm df _ (hnd _ _ seed h)

/-- Witness for C3 with the sampler that picks the first `n` indices:
from the three-row table, two rows are drawn without replacement. -/
theorem amostrar_df_spec_witness :
    (amostrar_df (fun _ n _ => List.range n) [10, 20, 30] 2 0).length = 2 ∧
    List.Subperm (amostrar_df (fun _ n _ => List.range n) [10, 20, 30] 2 0)
      [10, 20, 30] :=
  (amostrar_df_spec (fun _ n _ => List.range n)
    (fun _ n _ _ => by simp)
    (fun _ n _ _ => List.nodup_range n)
    (fun len n _ h i hi => lt_trans (List.mem_range.mp hi) h)
    [10, 20, 30] 2 0).2.1 (by norm_num)

end App
